import Mathlib

/-!
Shallow embedding of the `awscmds` deployment-pipeline helper
(`awscmds/_funcs.py`, `awscmds/_pipeline.py`).

External processes are modelled by a behaviour function `beh : Nat → ExtCall`
giving, for the i-th command issued in a run, the sequence of strings its
`readline` loop would return, its exit code, and its duration in seconds.
Every function that issues external commands threads an explicit trace of the
argument vectors issued so far; the i-th issued command consumes `beh i`.
Python exceptions are modelled by the `PyErr` error type and `Except`.
-/

namespace Awscmds

/-- Python exceptions that the modelled code can raise. -/
inductive PyErr where
  | valueError : PyErr
  | indexError : PyErr
  | typeError : PyErr
  | calledProcessError (returncode : Int) : PyErr
  deriving DecidableEq, Repr

/-- `subprocess.CompletedProcess` as produced and consumed by this code base:
`runcp` fills `args`, `returncode` and `stdout` and leaves `stderr = none`. -/
structure CompletedProcess where
  args : List String
  returncode : Int
  stdout : String
  stderr : Option String
  deriving DecidableEq, Repr

/-- Behaviour of one external process: the strings returned by successive
`readline` calls (the Python loop appends every one of them, including the
final empty string read at end-of-file), the exit code, and the wall-clock
duration of the run in seconds. -/
structure ExtCall where
  reads : List String
  code : Int
  dur : ℚ
  deriving DecidableEq, Repr

/-- Python's substring test `pat in hay` on lists of characters. -/
def hasSubstr (hay pat : List Char) : Bool :=
  pat.isPrefixOf hay ||
    match hay with
    | [] => false
    | _ :: t => hasSubstr t pat

/-- `runcp` (`_funcs.py` lines 42-79): collects the successive `readline`
results into `stdout_lines` and returns a `CompletedProcess` whose `stdout`
is `'\n'.join(stdout_lines)` and whose exit code is the process's; `stderr`
is never set. -/
def runcp (args : List String) (reads : List String) (code : Int) :
    CompletedProcess :=
  { args := args
    returncode := code
    stdout := String.intercalate "\n" reads
    stderr := none }

/-- One traced `runcp` call: appends the argument vector to the trace and
consumes the behaviour entry indexed by the number of commands issued so
far. -/
def runcpT (beh : Nat → ExtCall) (tr : List (List String))
    (args : List String) : List (List String) × CompletedProcess :=
  let c := beh tr.length
  (tr ++ [args], runcp args c.reads c.code)

/-- `check_call_rt` (`_funcs.py` lines 85-86): `runcp` with `check=True`,
raising `CalledProcessError` on a non-zero exit code. -/
def check_call_rt (beh : Nat → ExtCall) (tr : List (List String))
    (args : List String) :
    List (List String) × Except PyErr CompletedProcess :=
  let (tr', cp) := runcpT beh tr args
  (tr', if cp.returncode = 0 then .ok cp
        else .error (.calledProcessError cp.returncode))

/-- The rate-limit marker string from `_is_docker_build_too_many_requests`. -/
def tmrMarker : String := "toomanyrequests: Rate exceeded"

/-- `_is_docker_build_too_many_requests` (`_funcs.py` lines 103-109):
`cp.returncode != 0 and tmr in cp.stderr`. Python's `and` short-circuits,
so exit code 0 yields `False`; otherwise `tmr in cp.stderr` is evaluated,
which raises `TypeError` when `cp.stderr` is `None`. -/
def _is_docker_build_too_many_requests (cp : CompletedProcess) :
    Except PyErr Bool :=
  if cp.returncode = 0 then .ok false
  else
    match cp.stderr with
    | none => .error .typeError
    | some s => .ok (hasSubstr s.data tmrMarker.data)

/-- Argument vector built by `docker_build` via `_combine`
(`_funcs.py` lines 118-122). -/
def dockerBuildArgs (source_dir image_name : String)
    (docker_file : Option String) : List String :=
  ["docker", "build", "-t", image_name] ++
    (match docker_file with
     | some f => ["-f", f]
     | none => []) ++
    [source_dir]

/-- The retry loop of `docker_build` (`_funcs.py` lines 124-136).
`elapsed` is `time.monotonic() - start_time` at the start of the iteration;
each invocation adds its duration, each retry sleeps one second. `fuel`
bounds the number of loop iterations modelled; `none` means the loop was
still running when the fuel ran out. The result counts the invocations
made and gives the outcome. -/
def docker_build_loop (beh : Nat → ExtCall) (args : List String)
    (tmr_timeout : ℚ) :
    Nat → ℚ → Nat → Option (Nat × Except PyErr Unit)
  | 0, _, _ => none
  | fuel + 1, elapsed, i =>
    let c := beh i
    let cp := runcp args c.reads c.code
    let elapsed' := elapsed + c.dur
    if cp.returncode = 0 then some (i + 1, .ok ())
    else
      match _is_docker_build_too_many_requests cp with
      | .error e => some (i + 1, .error e)
      | .ok true =>
        if elapsed' < tmr_timeout - 1 then
          docker_build_loop beh args tmr_timeout fuel (elapsed' + 1) (i + 1)
        else some (i + 1, .error (.calledProcessError cp.returncode))
      | .ok false => some (i + 1, .error (.calledProcessError cp.returncode))

/-- `docker_build` (`_funcs.py` lines 112-136) with the default
`tmr_timeout = 30` made explicit; the i-th invocation of the build command
behaves as `beh i`. -/
def docker_build (beh : Nat → ExtCall) (source_dir image_name : String)
    (docker_file : Option String) (tmr_timeout : ℚ) (fuel : Nat) :
    Option (Nat × Except PyErr Unit) :=
  docker_build_loop beh (dockerBuildArgs source_dir image_name docker_file)
    tmr_timeout fuel 0 0

/-! ### `EcrRepoUri` and the registry reference regex

`EcrRepoUri.__init__` (`_funcs.py` lines 170-187) runs
`re.match(r'(.+)/([^@:]+)(?:[@:](.+))?', uri)`.  `re.match` anchors at the
start only.  The host group `(.+)` greedily matches characters other than
newline, backtracking to successively earlier slashes; the name group
`[^@:]+` greedily matches any characters except `@` and `:`; the optional
tag group matches `@` or `:` followed by at least one non-newline character,
and matches empty when it cannot.  So the engine binds the host to the
longest newline-free prefix that ends right before a `/` whose successor
character exists and is neither `@` nor `:`. -/

/-- Characters allowed in the name group `[^@:]+`. -/
def isNameChar (c : Char) : Bool := c ≠ '@' && c ≠ ':'

/-- Position `i` can serve as the separating slash of a regex match:
the host `s[0:i]` is non-empty and newline-free, `s[i] = '/'`, and the
character after it exists and can start the name group. -/
def isSepSlash (s : List Char) (i : Nat) : Bool :=
  decide (1 ≤ i) && (s.get? i == some '/') &&
    (s.take i).all (fun c => c ≠ '\n') &&
    (match s.get? (i + 1) with
     | some c => isNameChar c
     | none => false)

/-- Largest index in `[1, n]` that can serve as the separating slash. -/
def lastSepSlash (s : List Char) : Nat → Option Nat
  | 0 => none
  | n + 1 => if isSepSlash s (n + 1) then some (n + 1) else lastSepSlash s n

/-- The separating slash chosen by the backtracking regex engine: the
largest feasible one. -/
def ecrChoose (s : List Char) : Option Nat := lastSepSlash s s.length

/-- Result of `re.match(r'(.+)/([^@:]+)(?:[@:](.+))?', s)`: the three
groups (host, name, optional tag). -/
def ecrMatch (s : List Char) :
    Option (List Char × List Char × Option (List Char)) :=
  match ecrChoose s with
  | none => none
  | some i =>
    let host := s.take i
    let rest := s.drop (i + 1)
    let name := rest.takeWhile isNameChar
    let after := rest.drop name.length
    let tag :=
      match after with
      | [] => none
      | _ :: t =>
        let run := t.takeWhile (fun c => c ≠ '\n')
        if run.isEmpty then none else some run
    some (host, name, tag)

/-- Python's `str.split(sep)` for a one-character separator. -/
def splitChar (sep : Char) : List Char → List (List Char)
  | [] => [[]]
  | c :: t =>
    let r := splitChar sep t
    if c = sep then [] :: r
    else
      match r with
      | [] => [[c]]
      | h :: t' => (c :: h) :: t'

/-- The parsed registry reference (`EcrRepoUri`,
`_funcs.py` lines 170-187). -/
structure EcrRepoUri where
  uri : String
  host : String
  name : String
  tag : Option String
  region : String
  deriving DecidableEq, Repr

/-- `EcrRepoUri.__init__`: raises `ValueError` when the regex does not
match; otherwise sets `host`, `name`, `tag` from the groups and computes
`region = host.split('.')[-3]`, which raises `IndexError` when the host has
fewer than three dot-segments. -/
def EcrRepoUri.make (uri : String) : Except PyErr EcrRepoUri :=
  match ecrMatch uri.data with
  | none => .error .valueError
  | some (h, n, t) =>
    let parts := splitChar '.' h
    if 3 ≤ parts.length then
      .ok { uri := uri
            host := ⟨h⟩
            name := ⟨n⟩
            tag := t.map (⟨·⟩)
            region := ⟨parts.getD (parts.length - 3) []⟩ }
    else .error .indexError

/-- `EcrRepoUri.uri_without_tag` (`_funcs.py` lines 182-184). -/
def EcrRepoUri.uri_without_tag (u : EcrRepoUri) : String :=
  u.host ++ "/" ++ u.name

/-- Whether the WHOLE string matches `(.+)/([^@:]+)(?:[@:](.+))?`
(i.e. `re.fullmatch` would succeed): some choice of slash position and
name length covers every character.  This is the spec-side notion used by
the claim about parse failure; the code itself uses the unanchored
`re.match`. -/
def fullMatchEcr (s : List Char) : Bool :=
  (List.range (s.length + 1)).any fun i =>
    isSepSlash s i &&
      ((List.range (s.length + 1)).any fun j =>
        let rest := s.drop (i + 1)
        let name := rest.take j
        let tp := rest.drop j
        decide (j ≤ rest.length) && decide (1 ≤ j) && name.all isNameChar &&
          (match tp with
           | [] => true
           | c :: t =>
             (c = '@' || c = ':') && !t.isEmpty &&
               t.all (fun ch => ch ≠ '\n')))

/-- Whether `re.match` (anchored at the start only) succeeds on `s`:
some position can serve as the separating slash. -/
def anyMatchEcr (s : List Char) : Bool :=
  (List.range (s.length + 1)).any (isSepSlash s)

/-! ### Digest extraction and `docker_push_to_ecr` -/

/-- Characters matched by `[0-9a-z]`. -/
def isDigestChar (c : Char) : Bool :=
  ('0' ≤ c && c ≤ '9') || ('a' ≤ c && c ≤ 'z')

/-- `re.search(r'digest: (sha256:[0-9a-z]+)', s)`: scan left to right for
the first position where the literal `digest: sha256:` is followed by at
least one `[0-9a-z]` character; group 1 is `sha256:` plus the greedy run of
such characters. -/
def digestSearch : List Char → Option (List Char)
  | [] => none
  | c :: t =>
    let lit := "digest: sha256:".data
    if lit.isPrefixOf (c :: t) then
      let rest := (c :: t).drop lit.length
      let run := rest.takeWhile isDigestChar
      if run.isEmpty then digestSearch t else some ("sha256:".data ++ run)
    else digestSearch t

/-- `_get_digest` (`_funcs.py` lines 230-234): `ValueError` when the
pattern does not occur in the output. -/
def _get_digest (output : String) : Except PyErr String :=
  match digestSearch output.data with
  | none => .error .valueError
  | some d => .ok ⟨d⟩

/-- Argument vectors issued by `docker_push_to_ecr`. -/
def getLoginPasswordCmd (region : String) : List String :=
  ["aws", "ecr", "get-login-password", "--region", region]

def dockerLoginCmd (host : String) : List String :=
  ["docker", "login", "--username", "AWS", "--password-stdin", host]

def dockerTagCmd (image uri : String) : List String :=
  ["docker", "tag", image, uri]

def dockerPushCmd (uri : String) : List String :=
  ["docker", "push", uri]

/-- `docker_push_to_ecr` (`_funcs.py` lines 305-351) on an already
constructed `EcrRepoUri` (the string overload first converts through
`EcrRepoUri`).  The `get-login-password` process is spawned by `Popen`
without an exit-code check; `docker login` and `docker tag` go through
`check_call_rt`; `docker push` goes through plain `runcp`, and a non-zero
exit raises `CalledProcessError(cp.returncode, cp.args)`.  On exit 0 the
digest is parsed from the captured push output and
`uri_without_tag + '@' + digest` is returned. -/
def docker_push_to_ecr (beh : Nat → ExtCall) (docker_image : String)
    (repo_uri : EcrRepoUri) : List (List String) × Except PyErr String :=
  let tr1 := [getLoginPasswordCmd repo_uri.region]
  let (tr2, r2) := check_call_rt beh tr1 (dockerLoginCmd repo_uri.host)
  match r2 with
  | .error e => (tr2, .error e)
  | .ok _ =>
    let (tr3, r3) := check_call_rt beh tr2
      (dockerTagCmd docker_image repo_uri.uri)
    match r3 with
    | .error e => (tr3, .error e)
    | .ok _ =>
      let (tr4, cp) := runcpT beh tr3 (dockerPushCmd repo_uri.uri)
      if cp.returncode ≠ 0 then
        (tr4, .error (.calledProcessError cp.returncode))
      else
        match _get_digest cp.stdout with
        | .error e => (tr4, .error e)
        | .ok digest => (tr4, .ok (repo_uri.uri_without_tag ++ "@" ++ digest))

/-! ### `ecr_repo_uri_to_region` -/

/-- `ecr_repo_uri_to_region` (`_funcs.py` lines 220-223): split the URI at
`/`, take the first part ending in `.amazonaws.com` (`next` raises
`StopIteration`, modelled as an error, when there is none), and return its
third-from-last dot-segment (`IndexError` when it has fewer than three). -/
def ecr_repo_uri_to_region (uri : String) : Except PyErr String :=
  let parts := splitChar '/' uri.data
  match parts.find? (fun p => ".amazonaws.com".data.isSuffixOf p) with
  | none => .error .valueError
  | some host =>
    let segs := splitChar '.' host
    if 3 ≤ segs.length then .ok ⟨segs.getD (segs.length - 3) []⟩
    else .error .indexError

/-! ### JSON values and `ecr_delete_images_by_json`

`json.loads` is standard-library code outside this repository; it is
modelled here for the JSON forms the pipeline exchanges with the registry:
`null`, booleans, integer numbers, strings with the single-character
escapes, arrays and objects, with JSON whitespace. -/

inductive Json where
  | null : Json
  | bool (b : Bool) : Json
  | num (n : Int) : Json
  | str (s : String) : Json
  | arr (l : List Json) : Json
  | obj (l : List (String × Json)) : Json

/-- Python truthiness of a decoded JSON value (`None`, `False`, `0`, `""`,
`[]`, `{}` are falsy). -/
def Json.truthy : Json → Bool
  | .null => false
  | .bool b => b
  | .num n => n ≠ 0
  | .str s => !s.isEmpty
  | .arr l => !l.isEmpty
  | .obj l => !l.isEmpty

def isJsonWs (c : Char) : Bool :=
  c = ' ' || c = '\t' || c = '\n' || c = '\r'

def skipWs (l : List Char) : List Char := l.dropWhile isJsonWs

/-- One string-escape character. -/
def jsonEscChar (c : Char) : Option Char :=
  if c = '"' then some '"'
  else if c = '\\' then some '\\'
  else if c = '/' then some '/'
  else if c = 'b' then some (Char.ofNat 8)
  else if c = 'f' then some (Char.ofNat 12)
  else if c = 'n' then some '\n'
  else if c = 'r' then some '\r'
  else if c = 't' then some (Char.ofNat 9)
  else none

/-- Parse the remainder of a JSON string (after the opening quote). -/
def parseJsonStr : List Char → Option (List Char × List Char)
  | [] => none
  | '"' :: t => some ([], t)
  | '\\' :: e :: t =>
    match jsonEscChar e with
    | none => none
    | some c =>
      match parseJsonStr t with
      | none => none
      | some (s, rest) => some (c :: s, rest)
  | c :: t =>
    if c = '\\' then none
    else
      match parseJsonStr t with
      | none => none
      | some (s, rest) => some (c :: s, rest)

def digitVal (c : Char) : Nat := c.toNat - '0'.toNat

def parseDigits (l : List Char) (acc : Nat) : Nat × List Char :=
  match l with
  | c :: t => if c.isDigit then parseDigits t (acc * 10 + digitVal c) else (acc, l)
  | [] => (acc, l)
termination_by l.length

mutual

/-- Parse one JSON value from the front of the input. -/
def parseJsonVal (fuel : Nat) (l : List Char) :
    Option (Json × List Char) :=
  match fuel with
  | 0 => none
  | fuel + 1 =>
    match skipWs l with
    | [] => none
    | c :: t =>
      if c = 'n' then
        if "ull".data.isPrefixOf t then some (.null, t.drop 3) else none
      else if c = 't' then
        if "rue".data.isPrefixOf t then some (.bool true, t.drop 3) else none
      else if c = 'f' then
        if "alse".data.isPrefixOf t then some (.bool false, t.drop 4) else none
      else if c = '"' then
        match parseJsonStr t with
        | none => none
        | some (s, rest) => some (.str ⟨s⟩, rest)
      else if c = '[' then
        match skipWs t with
        | ']' :: rest => some (.arr [], rest)
        | t' =>
          match parseJsonItems fuel t' with
          | none => none
          | some (items, rest) =>
            match skipWs rest with
            | ']' :: rest' => some (.arr items, rest')
            | _ => none
      else if c = '\x7b' then
        match skipWs t with
        | t' =>
          if t'.head? = some '\x7d' then some (.obj [], t'.drop 1)
          else
            match parseJsonMembers fuel t' with
            | none => none
            | some (mems, rest) =>
              if (skipWs rest).head? = some '\x7d' then
                some (.obj mems, (skipWs rest).drop 1)
              else none
      else if c = '-' then
        match t with
        | d :: _ =>
          if d.isDigit then
            let (n, rest) := parseDigits t 0
            some (.num (-(n : Int)), rest)
          else none
        | [] => none
      else if c.isDigit then
        let (n, rest) := parseDigits (c :: t) 0
        some (.num (n : Int), rest)
      else none

/-- Parse a non-empty comma-separated list of JSON values. -/
def parseJsonItems (fuel : Nat) (l : List Char) :
    Option (List Json × List Char) :=
  match fuel with
  | 0 => none
  | fuel + 1 =>
    match parseJsonVal fuel l with
    | none => none
    | some (v, rest) =>
      match skipWs rest with
      | ',' :: rest' =>
        match parseJsonItems fuel rest' with
        | none => none
        | some (vs, rest'') => some (v :: vs, rest'')
      | _ => some ([v], rest)

/-- Parse a non-empty comma-separated list of JSON object members. -/
def parseJsonMembers (fuel : Nat) (l : List Char) :
    Option (List (String × Json) × List Char) :=
  match fuel with
  | 0 => none
  | fuel + 1 =>
    match skipWs l with
    | '"' :: t =>
      match parseJsonStr t with
      | none => none
      | some (k, rest) =>
        match skipWs rest with
        | ':' :: rest' =>
          match parseJsonVal fuel rest' with
          | none => none
          | some (v, rest'') =>
            match skipWs rest'' with
            | ',' :: rest3 =>
              match parseJsonMembers fuel rest3 with
              | none => none
              | some (ms, rest4) => some ((⟨k⟩, v) :: ms, rest4)
            | _ => some ([(⟨k⟩, v)], rest'')
        | _ => none
    | _ => none

end

/-- Modelled `json.loads`: parse one value, require only whitespace after
it, raise otherwise (modelled as `ValueError`, the ancestor of Python's
`json.JSONDecodeError`). -/
def json_loads (s : String) : Except PyErr Json :=
  match parseJsonVal (s.length + 1) s.data with
  | none => .error .valueError
  | some (v, rest) =>
    if (skipWs rest).isEmpty then .ok v else .error .valueError

/-- Argument vector of the batch-delete command. -/
def batchDeleteCmd (region name json : String) : List String :=
  ["aws", "ecr", "batch-delete-image", "--region", region,
   "--repository-name", name, "--image-ids", json]

/-- `ecr_delete_images_by_json` (`_funcs.py` lines 247-259) on an already
constructed `EcrRepoUri` (the string overload first converts through
`EcrRepoUri`): decode the JSON argument; when the decoded value is falsy,
print and return without issuing any command; otherwise issue the
batch-delete command through `check_call_rt`. -/
def ecr_delete_images_by_json (beh : Nat → ExtCall) (repo_uri : EcrRepoUri)
    (image_ids_in_json : String) :
    List (List String) × Except PyErr Unit :=
  match json_loads image_ids_in_json with
  | .error e => ([], .error e)
  | .ok v =>
    if !v.truthy then ([], .ok ())
    else
      let (tr, r) := check_call_rt beh []
        (batchDeleteCmd repo_uri.region repo_uri.name image_ids_in_json)
      (tr, r.map fun _ => ())

/-! ### The update-await protocol -/

/-- Argument vector of one stability poll sequence
(`aws lambda wait function-updated`). -/
def waitCmd (aws_region func_name : String) : List String :=
  ["aws", "lambda", "wait", "function-updated",
   "--region", aws_region, "--function-name", func_name]

/-- Argument vector of the update call
(`aws lambda update-function-code`). -/
def updateCmd (aws_region func_name ecr_image_uri : String) : List String :=
  ["aws", "lambda", "update-function-code",
   "--region", aws_region, "--function-name", func_name,
   "--image-uri", ecr_image_uri]

/-- `lambda_function_wait_updated` (`_funcs.py` lines 354-364): one
stability poll sequence, issued through `check_call_rt`. -/
def lambda_function_wait_updated (beh : Nat → ExtCall)
    (tr : List (List String)) (aws_region func_name : String) :
    List (List String) × Except PyErr Unit :=
  let (tr', r) := check_call_rt beh tr (waitCmd aws_region func_name)
  (tr', r.map fun _ => ())

/-- `lambda_function_update` (`_funcs.py` lines 367-391): wait for
stability, issue `update-function-code`, wait for stability again. -/
def lambda_function_update (beh : Nat → ExtCall)
    (aws_region func_name ecr_image_uri : String) :
    List (List String) × Except PyErr Unit :=
  let (tr1, r1) := lambda_function_wait_updated beh [] aws_region func_name
  match r1 with
  | .error e => (tr1, .error e)
  | .ok _ =>
    let (tr2, r2) := check_call_rt beh tr1
      (updateCmd aws_region func_name ecr_image_uri)
    match r2 with
    | .error e => (tr2, .error e)
    | .ok _ => lambda_function_wait_updated beh tr2 aws_region func_name

/-! ### The pipeline orchestrator (`_pipeline.py`) -/

/-- `Stage` (`_pipeline.py` lines 10-14).  `local` is a Lean keyword, so
the first constructor is written `local_`. -/
inductive Stage where
  | local_ : Stage
  | docker : Stage
  | dev : Stage
  | prod : Stage
  deriving DecidableEq, Repr

/-- The configuration fields of `LambdaDockerPipeline` consulted by
`ecr_image_uri` and `lambda_func_name`. -/
structure LambdaDockerPipeline where
  ecr_host : String
  ecr_repo_name : String
  lambda_func_name_dev : String
  lambda_func_name_prod : String
  deriving DecidableEq, Repr

/-- `LambdaDockerPipeline.ecr_image_uri` (`_pipeline.py` lines 78-84):
`ValueError` for any stage other than `dev` and `prod`. -/
def LambdaDockerPipeline.ecr_image_uri (p : LambdaDockerPipeline)
    (stage : Stage) : Except PyErr String :=
  match stage with
  | .dev => .ok (p.ecr_host ++ "/" ++ p.ecr_repo_name ++ ":dev")
  | .prod => .ok (p.ecr_host ++ "/" ++ p.ecr_repo_name ++ ":prod")
  | _ => .error .valueError

/-- `LambdaDockerPipeline.lambda_func_name` (`_pipeline.py` lines 86-92):
`ValueError` for any stage other than `dev` and `prod`. -/
def LambdaDockerPipeline.lambda_func_name (p : LambdaDockerPipeline)
    (stage : Stage) : Except PyErr String :=
  match stage with
  | .dev => .ok p.lambda_func_name_dev
  | .prod => .ok p.lambda_func_name_prod
  | _ => .error .valueError

/-- Admissible suffixes of a reference string after `host/name`: nothing,
or `:`/`@` followed by text; the registry reference forms of the spec
(`host/name`, `host/name:tag`, `host/name@sha256:<hex>`) all have this
shape.  The `tag` part is additionally required to contain no `/`. -/
def sufOk : List Char → Bool
  | [] => true
  | c :: t => (c = ':' || c = '@') && !t.contains '/'

/-! ## Auxiliary lemmas -/

theorem splitChar_ne_nil (sep : Char) (l : List Char) :
    splitChar sep l ≠ [] := by
  induction l with
  | nil => simp [splitChar]
  | cons c t ih =>
    simp only [splitChar]
    split
    · simp
    · cases h : splitChar sep t with
      | nil => exact absurd h ih
      | cons a b => simp

theorem length_splitChar (sep : Char) (l : List Char) :
    (splitChar sep l).length = l.count sep + 1 := by
  induction l with
  | nil => simp [splitChar]
  | cons c t ih =>
    simp only [splitChar]
    by_cases hc : c = sep
    · simp [hc, List.count_cons, ih]
    · cases h : splitChar sep t with
      | nil => exact absurd h (splitChar_ne_nil sep t)
      | cons a b =>
        rw [h] at ih
        simp [hc, List.count_cons, ← ih, Ne.symm hc]

theorem splitChar_append_cons (sep : Char) (a b : List Char)
    (ha : sep ∉ a) : splitChar sep (a ++ sep :: b) = a :: splitChar sep b := by
  induction a with
  | nil => simp [splitChar]
  | cons c t ih =>
    have hc : c ≠ sep := fun h => ha (h ▸ List.mem_cons_self c t)
    have ht : sep ∉ t := fun h => ha (List.mem_cons_of_mem c h)
    simp only [List.cons_append, splitChar, if_neg hc, List.append_eq]
    rw [ih ht]

theorem takeWhile_append_all (p : Char → Bool) (a b : List Char)
    (ha : ∀ x ∈ a, p x = true)
    (hb : ∀ c, b.head? = some c → p c = false) :
    (a ++ b).takeWhile p = a := by
  induction a with
  | nil =>
    cases b with
    | nil => rfl
    | cons c t => simp [List.takeWhile_cons, hb c rfl]
  | cons c t ih =>
    have hc : p c = true := ha c (List.mem_cons_self c t)
    simp only [List.cons_append, List.takeWhile_cons, hc, if_pos]
    rw [ih (fun x hx => ha x (List.mem_cons_of_mem c hx))]

theorem lastSepSlash_eq_some (s : List Char) (k : Nat)
    (hk : isSepSlash s k = true)
    (hmax : ∀ j, k < j → isSepSlash s j = false) :
    ∀ n, k ≤ n → lastSepSlash s n = some k := by
  intro n
  induction n with
  | zero =>
    intro hn
    interval_cases k
    simp [isSepSlash] at hk
  | succ m ih =>
    intro hn
    rcases Nat.lt_or_ge k (m + 1) with h | h
    · have : isSepSlash s (m + 1) = false := hmax (m + 1) h
      simp only [lastSepSlash, this, if_neg]
      exact ih (Nat.lt_succ_iff.mp h)
    · have : k = m + 1 := Nat.le_antisymm hn h
      subst this
      simp [lastSepSlash, hk]

theorem lastSepSlash_eq_none_iff (s : List Char) (n : Nat) :
    lastSepSlash s n = none ↔ ∀ j, j ≤ n → isSepSlash s j = false := by
  induction n with
  | zero =>
    constructor
    · intro _ j hj
      interval_cases j
      simp [isSepSlash]
    · intro _
      simp [lastSepSlash]
  | succ m ih =>
    simp only [lastSepSlash]
    constructor
    · intro h j hj
      by_cases hs : isSepSlash s (m + 1) = true
      · rw [if_pos hs] at h
        exact absurd h (by simp)
      · rw [if_neg hs] at h
        rcases Nat.lt_or_ge j (m + 1) with hlt | hge
        · exact ih.mp h j (Nat.lt_succ_iff.mp hlt)
        · have : j = m + 1 := Nat.le_antisymm hj hge
          subst this
          exact Bool.eq_false_iff.mpr hs
    · intro h
      rw [if_neg (by simp [h (m + 1) le_rfl])]
      exact ih.mpr fun j hj => h j (Nat.le_succ_of_le hj)

theorem count_of_suffix_amazonaws (host : List Char)
    (h : ".amazonaws.com".data.isSuffixOf host = true) :
    3 ≤ (splitChar '.' host).length := by
  have hs : ".amazonaws.com".data <:+ host := by
    rwa [← List.isSuffixOf_iff_suffix]
  obtain ⟨p, hp⟩ := hs
  rw [length_splitChar, ← hp, List.count_append]
  have : (".amazonaws.com".data.count '.') = 2 := by decide
  omega

/-! ## Claim theorems -/

/-- C1: every call of `lambda_function_update` whose three external
commands succeed issues exactly the trace
`[stability wait, update-function-code, stability wait]`: the stability
wait runs exactly once before the update command and exactly once after
it, the update command is issued exactly once, and at least two stability
polls occur even when the function is already stable on entry (the waits
return immediately with exit code 0). -/
theorem lambda_function_update_waits_around_update
    (beh : Nat → ExtCall) (region fname uri : String)
    (h0 : (beh 0).code = 0) (h1 : (beh 1).code = 0) (h2 : (beh 2).code = 0) :
    lambda_function_update beh region fname uri =
      ([waitCmd region fname, updateCmd region fname uri,
        waitCmd region fname], .ok ()) ∧
    (lambda_function_update beh region fname uri).1.count
      (waitCmd region fname) = 2 ∧
    (lambda_function_update beh region fname uri).1.count
      (updateCmd region fname uri) = 1 := by
  have hne : waitCmd region fname ≠ updateCmd region fname uri := by
    intro h
    have h2' := congrArg (fun l => l.get? 2) h
    simp [waitCmd, updateCmd] at h2'
  have htr : lambda_function_update beh region fname uri =
      ([waitCmd region fname, updateCmd region fname uri,
        waitCmd region fname], .ok ()) := by
    simp [lambda_function_update, lambda_function_wait_updated,
      check_call_rt, runcpT, runcp, Except.map, h0, h1, h2]
  refine ⟨htr, ?_, ?_⟩ <;>
    rw [htr] <;>
    simp [List.count_cons, List.count_nil, hne, Ne.symm hne]

/-- C1 witness: a behaviour whose commands all succeed immediately. -/
theorem lambda_function_update_waits_around_update_witness :
    lambda_function_update (fun _ => ⟨[], 0, 0⟩) "us-east-1" "func" "img" =
      ([waitCmd "us-east-1" "func", updateCmd "us-east-1" "func" "img",
        waitCmd "us-east-1" "func"], .ok ()) :=
  (lambda_function_update_waits_around_update (fun _ => ⟨[], 0, 0⟩)
    "us-east-1" "func" "img" rfl rfl rfl).1

/-- C2 failing input: on a failed build result produced by `runcp` — exit
code 2 and the rate-limit marker in the captured text — the classifier
does not return `true`: it raises `TypeError`, because it tests the marker
against `cp.stderr`, which `runcp` always leaves as `None`.  For exit code
0 it does return `false` as claimed. -/
theorem is_docker_build_tmr_typeerror :
    _is_docker_build_too_many_requests
      (runcp ["docker", "build"]
        ["toomanyrequests: Rate exceeded\n", ""] 2) = .error .typeError ∧
    _is_docker_build_too_many_requests
      (runcp ["docker", "build"]
        ["toomanyrequests: Rate exceeded\n", ""] 0) = .ok false :=
  ⟨rfl, rfl⟩

/-- C3 failing input: a runner whose first invocation fails with the
rate-limit marker (exit code 2) and whose later invocations would succeed.
`docker_build` with the default 30-second budget does not retry: the
classifier raises `TypeError` on the first failure (it reads `cp.stderr`,
which `runcp` never sets), so the run stops after exactly one invocation
with `TypeError` instead of sleeping and re-invoking.  A first invocation
that exits 0 does succeed immediately, as claimed. -/
theorem docker_build_typeerror_instead_of_retry :
    docker_build
      (fun i => if i = 0
        then ⟨["toomanyrequests: Rate exceeded\n", ""], 2, 1⟩
        else ⟨[], 0, 1⟩)
      "." "img" none 30 5 = some (1, .error .typeError) ∧
    docker_build (fun _ => ⟨[], 0, 1⟩) "." "img" none 30 5 =
      some (1, .ok ()) :=
  ⟨rfl, rfl⟩

/-- C5 failing input: a process whose `readline` loop reads `"a\n"`,
`"b\n"` and the final `""`, exiting with code 0.  The captured text is the
lines joined with an extra `'\n'` (`"a\n\nb\n\n"`), not their
character-for-character concatenation (`"a\nb\n"`); the exit code is
returned faithfully. -/
theorem runcp_stdout_not_concatenation :
    (runcp ["cmd"] ["a\n", "b\n", ""] 0).stdout = "a\n\nb\n\n" ∧
    (runcp ["cmd"] ["a\n", "b\n", ""] 0).stdout ≠
      String.join ["a\n", "b\n", ""] ∧
    (runcp ["cmd"] ["a\n", "b\n", ""] 0).returncode = 0 := by
  refine ⟨rfl, ?_, rfl⟩
  decide

/-- C9: `ecr_image_uri` and `lambda_func_name` raise `ValueError` for the
stages `local` and `docker`, and return the configured `:dev`/`:prod`
image URI and the configured dev/prod function name for `dev` and
`prod`. -/
theorem pipeline_stage_selection (p : LambdaDockerPipeline) :
    p.ecr_image_uri .local_ = .error .valueError ∧
    p.ecr_image_uri .docker = .error .valueError ∧
    p.ecr_image_uri .dev = .ok (p.ecr_host ++ "/" ++ p.ecr_repo_name ++ ":dev") ∧
    p.ecr_image_uri .prod = .ok (p.ecr_host ++ "/" ++ p.ecr_repo_name ++ ":prod") ∧
    p.lambda_func_name .local_ = .error .valueError ∧
    p.lambda_func_name .docker = .error .valueError ∧
    p.lambda_func_name .dev = .ok p.lambda_func_name_dev ∧
    p.lambda_func_name .prod = .ok p.lambda_func_name_prod :=
  ⟨rfl, rfl, rfl, rfl, rfl, rfl, rfl, rfl⟩

/-- C4: when the login and tag commands succeed, `docker_push_to_ecr`
behaves as follows on the push command (the fourth command issued): on
exit 0 with the digest pattern present in the captured output it returns
`host + '/' + repository + '@' + digest` for the first matched digest; on
exit 0 without a match it fails with the distinct parse-contract error
(`ValueError` from `_get_digest`); on a non-zero exit it fails with
`CalledProcessError` carrying that exit code. -/
theorem docker_push_to_ecr_digest_contract
    (beh : Nat → ExtCall) (image : String) (u : EcrRepoUri)
    (hLogin : (beh 1).code = 0) (hTag : (beh 2).code = 0) :
    ((beh 3).code = 0 →
      (∀ d, digestSearch (String.intercalate "\n" (beh 3).reads).data = some d →
        (docker_push_to_ecr beh image u).2 =
          .ok (u.host ++ "/" ++ u.name ++ "@" ++ ⟨d⟩)) ∧
      (digestSearch (String.intercalate "\n" (beh 3).reads).data = none →
        (docker_push_to_ecr beh image u).2 = .error .valueError)) ∧
    ((beh 3).code ≠ 0 →
      (docker_push_to_ecr beh image u).2 =
        .error (.calledProcessError (beh 3).code)) := by
  simp only [docker_push_to_ecr, check_call_rt, runcpT, runcp,
    List.length_cons, List.length_nil, List.length_append,
    EcrRepoUri.uri_without_tag]
  refine ⟨fun hc => ⟨fun d hd => ?_, fun hnone => ?_⟩, fun hc => ?_⟩ <;>
    simp_all [_get_digest, hLogin, hTag]

/-- C4 witness: a push whose captured output contains
`digest: sha256:abc123`. -/
theorem docker_push_to_ecr_digest_contract_witness :
    (docker_push_to_ecr
      (fun i => if i = 3
        then ⟨["latest: digest: sha256:abc123 size: 2841\n", ""], 0, 0⟩
        else ⟨[], 0, 0⟩)
      "img:tag" ⟨"h.a.b/n:t", "h.a.b", "n", some "t", "a"⟩).2 =
      .ok ("h.a.b" ++ "/" ++ "n" ++ "@" ++ ⟨"sha256:abc123".data⟩) :=
  ((docker_push_to_ecr_digest_contract
      (fun i => if i = 3
        then ⟨["latest: digest: sha256:abc123 size: 2841\n", ""], 0, 0⟩
        else ⟨[], 0, 0⟩)
      "img:tag" ⟨"h.a.b/n:t", "h.a.b", "n", some "t", "a"⟩
      rfl rfl).1 rfl).1 "sha256:abc123".data rfl

/-- C10: `ecr_delete_images_by_json` on a JSON argument that decodes to an
empty collection (`[]` or an empty object) issues no external command and
returns normally; on a non-empty decoded array it issues exactly the one
batch-delete command. -/
theorem ecr_delete_images_by_json_empty_noop
    (beh : Nat → ExtCall) (u : EcrRepoUri) (s : String) (v : Json)
    (h : json_loads s = .ok v) :
    ((v = .arr [] ∨ v = .obj []) →
      ecr_delete_images_by_json beh u s = ([], .ok ())) ∧
    (∀ l, v = .arr l → l ≠ [] →
      (ecr_delete_images_by_json beh u s).1 =
        [batchDeleteCmd u.region u.name s]) := by
  constructor
  · rintro (rfl | rfl) <;> simp [ecr_delete_images_by_json, h, Json.truthy]
  · rintro l rfl hl
    simp [ecr_delete_images_by_json, h, Json.truthy, hl, check_call_rt,
      runcpT]

/-- C10 witness: the literal argument `"[]"` issues nothing. -/
theorem ecr_delete_images_by_json_empty_noop_witness :
    ecr_delete_images_by_json (fun _ => ⟨[], 0, 0⟩)
      ⟨"u", "h", "n", none, "r"⟩ "[]" = ([], .ok ()) :=
  (ecr_delete_images_by_json_empty_noop (fun _ => ⟨[], 0, 0⟩)
    ⟨"u", "h", "n", none, "r"⟩ "[]" (.arr []) rfl).1 (Or.inl rfl)

/-- C8 counterexample: for `"a.b.c/d:"` the whole string does not match
the regex `(.+)/([^@:]+)(?:[@:](.+))?` (a trailing `:` cannot be covered),
yet `EcrRepoUri` accepts it — `re.match` anchors only at the start, so the
unmatched remainder is silently ignored.  This refutes "raises ValueError
iff the whole string does not match". -/
theorem ecr_accepts_partial_match :
    fullMatchEcr "a.b.c/d:".data = false ∧
    EcrRepoUri.make "a.b.c/d:" =
      .ok ⟨"a.b.c/d:", "a.b.c", "d", none, "a"⟩ :=
  ⟨rfl, rfl⟩

/-- C8 amended: `EcrRepoUri` construction raises `ValueError` iff no
prefix of the string matches the regex `(.+)/([^@:]+)(?:[@:](.+))?`
(`re.match` is unanchored at the end, so an input whose proper prefix
matches is accepted with the remainder ignored; a successful regex match
can still raise `IndexError`, not `ValueError`, when the host has fewer
than three dot-segments). -/
theorem make_value_error_iff_no_prefix_match (s : String) :
    EcrRepoUri.make s = .error .valueError ↔ anyMatchEcr s.data = false := by
  have hmk : EcrRepoUri.make s = .error .valueError ↔
      ecrMatch s.data = none := by
    unfold EcrRepoUri.make
    cases hm : ecrMatch s.data with
    | none => simp
    | some x =>
      obtain ⟨h, n, t⟩ := x
      simp only
      split <;> simp
  have hch : ecrMatch s.data = none ↔ ecrChoose s.data = none := by
    unfold ecrMatch
    cases hc : ecrChoose s.data <;> simp
  have hany : anyMatchEcr s.data = false ↔
      ∀ j, j ≤ s.data.length → isSepSlash s.data j = false := by
    constructor
    · intro h j hj
      by_contra hx
      have ht : anyMatchEcr s.data = true :=
        List.any_eq_true.mpr
          ⟨j, List.mem_range.mpr (Nat.lt_succ_of_le hj),
            Bool.not_eq_false _ |>.mp hx⟩
      rw [h] at ht
      cases ht
    · intro h
      by_contra hx
      obtain ⟨j, hj, hsep⟩ :=
        List.any_eq_true.mp (Bool.not_eq_false _ |>.mp hx)
      rw [h j (Nat.lt_succ_iff.mp (List.mem_range.mp hj))] at hsep
      cases hsep
  rw [hmk, hch, hany]
  exact lastSepSlash_eq_none_iff s.data s.data.length

/-- C7: (a) whenever `EcrRepoUri` construction succeeds, the parsed host
has at least three dot-segments and the derived region is the
third-from-last one (index `length - 3`, Python's `[-3]`); (b)
`ecr_repo_uri_to_region` applied to `host/rest` where the host contains no
slash and ends in `.amazonaws.com` likewise returns the third-from-last
dot-segment of the host, which exists because of the domain suffix. -/
theorem region_third_from_last_segment :
    (∀ s u, EcrRepoUri.make s = .ok u →
      3 ≤ (splitChar '.' u.host.data).length ∧
      u.region = ⟨(splitChar '.' u.host.data).getD
        ((splitChar '.' u.host.data).length - 3) []⟩) ∧
    (∀ host rest : List Char, '/' ∉ host →
      ".amazonaws.com".data.isSuffixOf host = true →
      3 ≤ (splitChar '.' host).length ∧
      ecr_repo_uri_to_region ⟨host ++ '/' :: rest⟩ =
        .ok ⟨(splitChar '.' host).getD
          ((splitChar '.' host).length - 3) []⟩) := by
  constructor
  · intro s u h
    unfold EcrRepoUri.make at h
    cases hm : ecrMatch s.data with
    | none => rw [hm] at h; exact absurd h (by simp)
    | some x =>
      obtain ⟨ho, n, t⟩ := x
      rw [hm] at h
      simp only at h
      split at h
      · rw [Except.ok.injEq] at h
        subst h
        next h3 => exact ⟨h3, rfl⟩
      · exact absurd h (by simp)
  · intro host rest hsl hsfx
    have h3 := count_of_suffix_amazonaws host hsfx
    refine ⟨h3, ?_⟩
    unfold ecr_repo_uri_to_region
    show (match (splitChar '/' (host ++ '/' :: rest)).find?
        (fun p => ".amazonaws.com".data.isSuffixOf p) with
      | none => _ | some _ => _) = _
    rw [splitChar_append_cons '/' host rest hsl,
      List.find?_cons_of_pos _ hsfx]
    simp only [if_pos h3]

/-- C7 witness: the reference from the source's own self-test. -/
theorem region_third_from_last_segment_witness :
    ecr_repo_uri_to_region "1253812538.dkr.ecr.us-east-1.amazonaws.com/abc"
      = .ok "us-east-1" :=
  ((region_third_from_last_segment.2
    "1253812538.dkr.ecr.us-east-1.amazonaws.com".data "abc".data
    (by decide) (by decide)).2).trans rfl

/-- C6 counterexample: for host `"h"` and name `"n"` (both non-empty, the
name free of `:` and `@`), constructing `EcrRepoUri` from `"h/n"` does not
round-trip — it raises `IndexError`, because `__init__` unconditionally
computes `host.split('.')[-3]` and the host has fewer than three
dot-segments. -/
theorem ecr_round_trip_fails_short_host :
    EcrRepoUri.make ("h" ++ "/" ++ "n") = .error .indexError ∧
    ∀ u, EcrRepoUri.make ("h" ++ "/" ++ "n") ≠ .ok u :=
  ⟨rfl, fun _ h => Except.noConfusion ((rfl :
    EcrRepoUri.make ("h" ++ "/" ++ "n") = .error .indexError).symm.trans h)⟩

/-- C6 amended: for every reference string `host ++ "/" ++ name ++ suffix`
where the host is non-empty, newline-free and has at least three
dot-segments, the name is non-empty and contains no `@`, `:` or `/`, and
the suffix is empty or `:`/`@` followed by text containing no `/` (which
covers `host/name`, `host/name:tag` and `host/name@sha256:<hex>`),
construction succeeds, the parsed host and name equal the originals, and
`uri_without_tag` yields exactly `host ++ "/" ++ name`. -/
theorem ecr_uri_without_tag_round_trip (host name suffix : String)
    (hhost_ne : host.data ≠ []) (hhost_lf : '\n' ∉ host.data)
    (hhost_seg : 3 ≤ (splitChar '.' host.data).length)
    (hname_ne : name.data ≠ [])
    (hname : ∀ c ∈ name.data, c ≠ '@' ∧ c ≠ ':' ∧ c ≠ '/')
    (hsuf : sufOk suffix.data = true) :
    ∃ u, EcrRepoUri.make (host ++ "/" ++ name ++ suffix) = .ok u ∧
      u.host = host ∧ u.name = name ∧
      u.uri_without_tag = host ++ "/" ++ name := by
  have hdata : (host ++ "/" ++ name ++ suffix).data =
      host.data ++ '/' :: (name.data ++ suffix.data) := by
    simp [String.data_append]
  set rest := name.data ++ suffix.data with hrest
  set sdata := host.data ++ '/' :: rest with hsdata
  have hl1 : 1 ≤ host.data.length := List.length_pos.mpr hhost_ne
  obtain ⟨c0, name', hncons⟩ : ∃ c0 t, name.data = c0 :: t := by
    cases h : name.data with
    | nil => exact absurd h hname_ne
    | cons a b => exact ⟨a, b, rfl⟩
  have hc0 := hname c0 (by rw [hncons]; exact List.mem_cons_self c0 name')
  have hget_slash : sdata.get? host.data.length = some '/' := by
    rw [hsdata, List.get?_append_right (le_refl host.data.length),
      Nat.sub_self]
    rfl
  have hget_next : sdata.get? (host.data.length + 1) = some c0 := by
    rw [hsdata,
      List.get?_append_right (Nat.le_succ_of_le (le_refl host.data.length))]
    have h1 : host.data.length.succ - host.data.length = 1 := by omega
    rw [h1, hrest, hncons]
    rfl
  have hrest_no_slash : ∀ c ∈ rest, c ≠ '/' := by
    intro c hc
    rw [hrest] at hc
    rcases List.mem_append.mp hc with hcn | hcs
    · exact (hname c hcn).2.2
    · cases hsufd : suffix.data with
      | nil => rw [hsufd] at hcs; cases hcs
      | cons c1 t1 =>
        rw [hsufd] at hcs
        rw [hsufd] at hsuf
        simp only [sufOk, Bool.and_eq_true, Bool.or_eq_true,
          Bool.not_eq_true', decide_eq_true_eq] at hsuf
        rcases List.mem_cons.mp hcs with rfl | hct
        · rcases hsuf.1 with rfl | rfl <;> decide
        · intro hcslash
          rw [hcslash] at hct
          exact absurd (List.elem_iff.mpr hct) (by simp_all [List.contains])
  have htake : sdata.take host.data.length = host.data := by
    rw [hsdata]
    exact List.take_left host.data ('/' :: rest)
  have hfeas : isSepSlash sdata host.data.length = true := by
    unfold isSepSlash
    rw [hget_slash, hget_next, htake]
    simp [hl1, isNameChar, hc0.1, hc0.2.1, List.all_eq_true]
    exact ⟨hl1, fun c hc h => hhost_lf (h ▸ hc)⟩
  have hnofeas : ∀ j, host.data.length < j → isSepSlash sdata j = false := by
    intro j hj
    cases hg : sdata.get? j with
    | none =>
      unfold isSepSlash
      rw [hg]
      simp
    | some c =>
      obtain ⟨k, hk⟩ : ∃ k, j - host.data.length = k + 1 :=
        ⟨j - host.data.length - 1, by omega⟩
      have heq : sdata.get? j = rest.get? k := by
        rw [hsdata, List.get?_append_right (le_of_lt hj), hk,
          List.get?_cons_succ]
      have hcm : c ∈ rest := List.get?_mem (heq ▸ hg)
      have hcne : c ≠ '/' := hrest_no_slash c hcm
      unfold isSepSlash
      rw [hg]
      simp [hcne]
  have hchoose : ecrChoose sdata = some host.data.length := by
    unfold ecrChoose
    refine lastSepSlash_eq_some sdata host.data.length hfeas hnofeas
      sdata.length ?_
    rw [hsdata, List.length_append]
    exact Nat.le_add_right _ _
  obtain ⟨tv, hstep⟩ : ∃ tv, ecrMatch sdata = some (host.data, name.data, tv) := by
    have hdrop : sdata.drop (host.data.length + 1) = rest := by
      rw [hsdata]
      have hsplit : host.data ++ '/' :: rest = (host.data ++ ['/']) ++ rest := by
        simp
      have hlen : (host.data ++ ['/']).length = host.data.length + 1 := by
        simp
      rw [hsplit, ← hlen]
      exact List.drop_left _ _
    have htw : rest.takeWhile isNameChar = name.data := by
      rw [hrest]
      apply takeWhile_append_all
      · intro x hx
        simp [isNameChar, (hname x hx).1, (hname x hx).2.1]
      · intro c hc
        cases hsufd : suffix.data with
        | nil =>
          rw [hsufd] at hc
          cases hc
        | cons c1 t1 =>
          rw [hsufd] at hc hsuf
          simp only [List.head?_cons, Option.some.injEq] at hc
          simp only [sufOk, Bool.and_eq_true, Bool.or_eq_true,
            decide_eq_true_eq] at hsuf
          rcases hsuf.1 with h | h <;> rw [← hc, h] <;> decide
    simp only [ecrMatch, hchoose]
    rw [htake, hdrop, htw]
    exact ⟨_, rfl⟩
  have hmk : EcrRepoUri.make (host ++ "/" ++ name ++ suffix) =
      .ok { uri := host ++ "/" ++ name ++ suffix
            host := ⟨host.data⟩
            name := ⟨name.data⟩
            tag := tv.map (⟨·⟩)
            region := ⟨(splitChar '.' host.data).getD
              ((splitChar '.' host.data).length - 3) []⟩ } := by
    unfold EcrRepoUri.make
    rw [hdata]
    rw [hstep]
    simp only [if_pos hhost_seg]
  exact ⟨_, hmk, rfl, rfl, rfl⟩

/-- C6 witness: the tagged reference from the source's own test suite. -/
theorem ecr_uri_without_tag_round_trip_witness :
    ∃ u, EcrRepoUri.make
        ("1253812538.dkr.ecr.us-east-1.amazonaws.com" ++ "/" ++ "abc_x1"
          ++ ":mytag") = .ok u ∧
      u.host = "1253812538.dkr.ecr.us-east-1.amazonaws.com" ∧
      u.name = "abc_x1" ∧
      u.uri_without_tag =
        "1253812538.dkr.ecr.us-east-1.amazonaws.com" ++ "/" ++ "abc_x1" :=
  ecr_uri_without_tag_round_trip
    "1253812538.dkr.ecr.us-east-1.amazonaws.com" "abc_x1" ":mytag"
    (by decide) (by decide) (by decide) (by decide) (by decide) (by decide)

end Awscmds
